import Mathlib

/-!
Verification of the directory-listing / video-metadata-enrichment endpoint
(`src/api/routers/cdn.py` and `src/api/services/bunny_cdn.py`).

The embedding models Python dictionaries as association lists over a small
JSON value type.  The external collaborators (the directory lister and the
HTTP transport) are parameters: the lister is a function from a path to
either an entry list or a raised-exception message, and the metadata fetch
is a function from a video id to either a normalized record or a
raised-exception message.  Raising an exception is modelled by
`Except.error`; the per-item `try/except` of the router and the request
level `try/except` are modelled by the corresponding recovery on `Except`.
-/

namespace SnappedWeb

/-- JSON-like values, the payloads stored in the Python dictionaries. -/
inductive JVal where
  | null : JVal
  | str : String → JVal
  | num : Int → JVal
  | bool : Bool → JVal
  | obj : List (String × JVal) → JVal

/-- An entry of a directory listing: a Python dict, modelled as an
association list (first occurrence of a key wins, as in a dict there is at
most one occurrence). -/
abbrev Entry := List (String × JVal)

/-- Python `d[k] = v`: replace the value in place when the key is present
(dicts keep the key's original position), otherwise append the key. -/
def dictSet : List (String × JVal) → String → JVal → List (String × JVal)
  | [], k, v => [(k, v)]
  | (k', v') :: rest, k, v =>
    if k' = k then (k, v) :: rest else (k', v') :: dictSet rest k v

/-- Python `d.get(k)`: the stored value, or `None` when the key is absent. -/
def pyGet (d : List (String × JVal)) (k : String) : JVal :=
  (List.lookup k d).getD JVal.null

/-- The normalized five-field record built by `BunnyCDN.get_video_metadata`
from the remote JSON body (`length`, `width`, `height`, `encode`,
`status`). -/
structure MetadataRecord where
  length : JVal
  width : JVal
  height : JVal
  encode : JVal
  status : JVal

/-- The remote API's reply to the single GET request issued per call:
its HTTP status, its parsed JSON body, and its raw body text. -/
structure HttpResponse where
  status : Nat
  body : List (String × JVal)
  text : String

/-- `BunnyCDN.get_video_metadata` (src/api/services/bunny_cdn.py, lines
14-29), as a function of the remote response to its one GET request.
On status 200 it extracts the five fields with `data.get`; otherwise it
raises, with the response body text in the message. -/
def get_video_metadata (resp : HttpResponse) : Except String MetadataRecord :=
  if resp.status = 200 then
    Except.ok
      ⟨pyGet resp.body "length", pyGet resp.body "width",
       pyGet resp.body "height", pyGet resp.body "encode",
       pyGet resp.body "status"⟩
  else
    Except.error ("Failed to fetch metadata: " ++ resp.text)

/-- Python `str.lower()`, character-wise lowering (structural, so that
concrete names evaluate inside proofs). -/
def pyLower (s : String) : String :=
  String.mk (s.data.map Char.toLower)

/-- Python `s.endswith(t)`: `t` is a suffix of `s`. -/
def strEndsWith (s t : String) : Bool :=
  t.data.isSuffixOf s.data

/-- Python `name.lower().endswith(('.mp4', '.mov', '.webm'))`. -/
def isVideoName (n : String) : Bool :=
  strEndsWith (pyLower n) ".mp4" || strEndsWith (pyLower n) ".mov"
    || strEndsWith (pyLower n) ".webm"

/-- Python equality between a JSON value and a string literal (as in
`item['type'] == 'file'`): true exactly when the value is that string;
comparison with a value of any other type is `False`, not an error. -/
def pyEqStr (v : JVal) (s : String) : Bool :=
  match v with
  | JVal.str s' => s' = s
  | _ => false

/-- The metadata object the router attaches to a file entry on a
successful fetch: `duration` from `length`, `width`, `height`, `encoding`
from `encode`, `status` (src/api/routers/cdn.py, lines 20-26). -/
def metaObj (md : MetadataRecord) : JVal :=
  JVal.obj
    [("duration", md.length), ("width", md.width), ("height", md.height),
     ("encoding", md.encode), ("status", md.status)]

/-- The inner `try/except` of the router: on a successful fetch attach the
mapped metadata object, on any fetch error attach `None`. -/
def attachMeta (it : Entry) (r : Except String MetadataRecord) : Entry :=
  match r with
  | Except.ok md => dictSet it "metadata" (metaObj md)
  | Except.error _ => dictSet it "metadata" JVal.null

/-- One iteration of the router's `for item in contents` loop
(src/api/routers/cdn.py, lines 10-29).  `item['type']` and `item['name']`
raise `KeyError` on a missing key, and `.lower()` raises when the name is
not a string; those raises happen outside the inner `try` and so escape to
the request-level handler (`Except.error` here).  On success the result
carries the (possibly updated) entry together with the list of video ids
for which a metadata fetch was attempted. -/
def enrichItem (f : String → Except String MetadataRecord) (it : Entry) :
    Except String (Entry × List String) :=
  match List.lookup "type" it with
  | none => Except.error "KeyError: type"
  | some t =>
    if pyEqStr t "file" then
      match List.lookup "name" it with
      | none => Except.error "KeyError: name"
      | some (JVal.str n) =>
        if isVideoName n then Except.ok (attachMeta it (f n), [n])
        else Except.ok (it, [])
      | some _ => Except.error "AttributeError: lower"
    else Except.ok (it, [])

/-- The router's loop over the whole listing: an uncaught raise at any
entry aborts the remaining iterations and escapes to the request-level
handler. -/
def enrichList (f : String → Except String MetadataRecord) :
    List Entry → Except String (List Entry × List String)
  | [] => Except.ok ([], [])
  | it :: rest =>
    match enrichItem f it with
    | Except.error e => Except.error e
    | Except.ok (e, c) =>
      match enrichList f rest with
      | Except.error e2 => Except.error e2
      | Except.ok (es, cs) => Except.ok (e :: es, c ++ cs)

/-- The JSON body of the endpoint's reply: `{"status": "success",
"contents": ...}` or `{"status": "error", "message": ...}`. -/
inductive Response where
  | success : List Entry → Response
  | error : String → Response

/-- `list_contents` (src/api/routers/cdn.py, lines 4-39): fetch the
listing for `path` from the directory lister, enrich each eligible entry,
and convert any uncaught exception into the error body at the request
boundary. -/
def list_contents (path : String)
    (get_directory_contents : String → Except String (List Entry))
    (fetch : String → Except String MetadataRecord) : Response :=
  match get_directory_contents path with
  | Except.error e => Response.error e
  | Except.ok contents =>
    match enrichList fetch contents with
    | Except.error e => Response.error e
    | Except.ok (es, _) => Response.success es

/-- An entry the loop body can evaluate without raising: it has a `type`
key, and when that type is the string `"file"` it also has a `name` key
holding a string.  This is exactly the shape the spec's data model
guarantees for every entry produced by the directory lister (a name and a
type). -/
def wellFormed (it : Entry) : Bool :=
  match List.lookup "type" it with
  | none => false
  | some t =>
    if pyEqStr t "file" then
      match List.lookup "name" it with
      | some (JVal.str _) => true
      | _ => false
    else true

/-- The source's eligibility condition for a metadata fetch:
`item['type'] == 'file' and item['name'].lower().endswith(...)`. -/
def eligible (it : Entry) : Bool :=
  match List.lookup "type" it with
  | none => false
  | some t =>
    if pyEqStr t "file" then
      match List.lookup "name" it with
      | some (JVal.str n) => isVideoName n
      | _ => false
    else false

/-- The file name of an entry, when present as a string (the video id the
router passes to the CDN client, verbatim). -/
def entryName (it : Entry) : String :=
  match List.lookup "name" it with
  | some (JVal.str n) => n
  | _ => ""

/-- Specification-level description of one loop iteration on a well-formed
entry: attach metadata (and record the fetched id) exactly when the entry
is eligible. -/
def processItem (f : String → Except String MetadataRecord) (it : Entry) :
    Entry × List String :=
  if eligible it then (attachMeta it (f (entryName it)), [entryName it])
  else (it, [])

/-- Entry at index `i` of a listing (empty dict as the out-of-range
default, used only under an in-range hypothesis). -/
def nthEntry (l : List Entry) (i : Nat) : Entry :=
  List.getD l i []

theorem lookup_dictSet_self (d : List (String × JVal)) (k : String)
    (v : JVal) : List.lookup k (dictSet d k v) = some v := by
  induction d with
  | nil => simp [dictSet]
  | cons p rest ih =>
    obtain ⟨k', v'⟩ := p
    by_cases h : k' = k
    · subst h
      simp [dictSet]
    · have hb : (k == k') = false :=
        beq_eq_false_iff_ne.mpr (fun hh => h hh.symm)
      simp [dictSet, h, List.lookup, hb, ih]

theorem lookup_dictSet_ne (d : List (String × JVal)) (k k' : String)
    (v : JVal) (h : k' ≠ k) :
    List.lookup k' (dictSet d k v) = List.lookup k' d := by
  have hb : (k' == k) = false := beq_eq_false_iff_ne.mpr h
  induction d with
  | nil => simp [dictSet, List.lookup, hb]
  | cons p rest ih =>
    obtain ⟨k0, v0⟩ := p
    by_cases h0 : k0 = k
    · subst h0
      simp [dictSet, List.lookup, hb]
    · simp [dictSet, h0, List.lookup, ih]

theorem lookup_attachMeta_self (it : Entry)
    (r : Except String MetadataRecord) :
    List.lookup "metadata" (attachMeta it r) =
      some (match r with
            | Except.ok md => metaObj md
            | Except.error _ => JVal.null) := by
  cases r with
  | ok md => simp [attachMeta, lookup_dictSet_self]
  | error e => simp [attachMeta, lookup_dictSet_self]

theorem lookup_attachMeta_ne (it : Entry)
    (r : Except String MetadataRecord) (k : String) (h : k ≠ "metadata") :
    List.lookup k (attachMeta it r) = List.lookup k it := by
  cases r with
  | ok md => simp [attachMeta, lookup_dictSet_ne _ _ _ _ h]
  | error e => simp [attachMeta, lookup_dictSet_ne _ _ _ _ h]

/-- On a well-formed entry the loop body does not raise and behaves as
`processItem`. -/
theorem enrichItem_wf (f : String → Except String MetadataRecord)
    (it : Entry) (h : wellFormed it = true) :
    enrichItem f it = Except.ok (processItem f it) := by
  unfold wellFormed at h
  unfold enrichItem processItem eligible entryName
  cases htype : List.lookup "type" it with
  | none => rw [htype] at h; exact absurd h (by simp)
  | some t =>
    rw [htype] at h
    simp only [] at h ⊢
    by_cases hf : pyEqStr t "file"
    · rw [if_pos hf] at h
      rw [if_pos hf]
      cases hname : List.lookup "name" it with
      | none => rw [hname] at h; exact absurd h (by simp)
      | some nv =>
        rw [hname] at h
        cases nv with
        | str n => by_cases hv : isVideoName n <;> simp [hf, hv]
        | null => exact absurd h (by simp)
        | num m => exact absurd h (by simp)
        | bool b => exact absurd h (by simp)
        | obj o => exact absurd h (by simp)
    · simp [hf]

theorem nthEntry_cons_zero (x : Entry) (xs : List Entry) :
    nthEntry (x :: xs) 0 = x := rfl

theorem nthEntry_cons_succ (x : Entry) (xs : List Entry) (i : Nat) :
    nthEntry (x :: xs) (i + 1) = nthEntry xs i := rfl

theorem nthEntry_map (g : Entry → Entry) (l : List Entry) (i : Nat)
    (hi : i < l.length) : nthEntry (l.map g) i = g (nthEntry l i) := by
  induction l generalizing i with
  | nil => exact absurd hi (by simp)
  | cons x xs ih =>
    cases i with
    | zero => rfl
    | succ j =>
      rw [List.map_cons, nthEntry_cons_succ, nthEntry_cons_succ]
      exact ih j (by simpa using hi)

/-- On a listing of well-formed entries the loop never raises: the output
entries are the pointwise `processItem` results and the fetched video ids
are the names of the eligible entries, in listing order. -/
theorem enrichList_wf (f : String → Except String MetadataRecord)
    (l : List Entry) (h : l.all wellFormed = true) :
    enrichList f l =
      Except.ok (l.map (fun it => (processItem f it).1),
        (l.filter (fun it => eligible it)).map entryName) := by
  induction l with
  | nil => rfl
  | cons it rest ih =>
    rw [List.all_cons, Bool.and_eq_true] at h
    have hit := enrichItem_wf f it h.1
    have hrest := ih h.2
    unfold enrichList
    rw [hit, hrest]
    unfold processItem
    by_cases he : eligible it
    · simp [he, List.filter_cons]
    · simp [he, List.filter_cons]

/-- Inversion of a non-raising loop iteration: the output entry is the
input with metadata attached when the entry is eligible, and the input
unchanged otherwise. -/
theorem enrichItem_ok (f : String → Except String MetadataRecord)
    (it e : Entry) (c : List String)
    (h : enrichItem f it = Except.ok (e, c)) :
    (eligible it = true → e = attachMeta it (f (entryName it))) ∧
      (eligible it = false → e = it) := by
  unfold enrichItem at h
  unfold eligible entryName
  cases htype : List.lookup "type" it with
  | none => rw [htype] at h; exact absurd h (by simp)
  | some t =>
    rw [htype] at h
    simp only [] at h ⊢
    by_cases hf : pyEqStr t "file"
    · rw [if_pos hf] at h
      cases hname : List.lookup "name" it with
      | none => rw [hname] at h; exact absurd h (by simp)
      | some nv =>
        rw [hname] at h
        cases nv with
        | str n =>
          simp only [] at h ⊢
          by_cases hv : isVideoName n
          · rw [if_pos hv] at h
            simp only [Except.ok.injEq, Prod.mk.injEq] at h
            refine ⟨fun _ => h.1.symm, fun hc => ?_⟩
            simp [hf, hv] at hc
          · rw [if_neg hv] at h
            simp only [Except.ok.injEq, Prod.mk.injEq] at h
            refine ⟨fun hc => ?_, fun _ => h.1.symm⟩
            simp [hf, hv] at hc
        | null => exact absurd h (by simp)
        | num m => exact absurd h (by simp)
        | bool b => exact absurd h (by simp)
        | obj o => exact absurd h (by simp)
    · rw [if_neg hf] at h
      simp only [Except.ok.injEq, Prod.mk.injEq] at h
      refine ⟨fun hc => ?_, fun _ => h.1.symm⟩
      simp [hf] at hc

/-- Inversion of a non-raising run of the loop: the output listing is
pointwise the output of one loop iteration on the corresponding input
entry. -/
theorem enrichList_ok (f : String → Except String MetadataRecord) :
    ∀ (l es : List Entry) (tr : List String),
      enrichList f l = Except.ok (es, tr) →
      es.length = l.length ∧
        ∀ i, i < l.length →
          ∃ c, enrichItem f (nthEntry l i) = Except.ok (nthEntry es i, c) := by
  intro l
  induction l with
  | nil =>
    intro es tr h
    simp only [enrichList, Except.ok.injEq, Prod.mk.injEq] at h
    refine ⟨by rw [← h.1], ?_⟩
    intro i hi
    exact absurd hi (by simp)
  | cons it rest ih =>
    intro es tr h
    unfold enrichList at h
    cases he : enrichItem f it with
    | error msg => rw [he] at h; exact absurd h (by simp)
    | ok p =>
      obtain ⟨e, c⟩ := p
      rw [he] at h
      cases hr : enrichList f rest with
      | error msg => rw [hr] at h; exact absurd h (by simp)
      | ok q =>
        obtain ⟨es', cs'⟩ := q
        rw [hr] at h
        simp only [Except.ok.injEq, Prod.mk.injEq] at h
        obtain ⟨hes, -⟩ := h
        obtain ⟨hih1, hih2⟩ := ih es' cs' hr
        subst hes
        refine ⟨by simp [hih1], ?_⟩
        intro i hi
        cases i with
        | zero =>
          exact ⟨c, by rw [nthEntry_cons_zero, nthEntry_cons_zero]; exact he⟩
        | succ j =>
          rw [nthEntry_cons_succ, nthEntry_cons_succ]
          exact hih2 j (by simpa using hi)

/-- One loop iteration depends on the fetch oracle only through the value
it returns for the entry's own video id, and not at all for an ineligible
entry. -/
theorem processItem_congr (f g : String → Except String MetadataRecord)
    (it : Entry)
    (h : eligible it = true → f (entryName it) = g (entryName it)) :
    processItem f it = processItem g it := by
  unfold processItem
  by_cases he : eligible it
  · rw [if_pos he, if_pos he, h he]
  · rw [if_neg he, if_neg he]

/-- A raise at one entry aborts the loop there: whatever entries follow,
the result is that raise. -/
theorem enrichList_stops_at_error
    (f : String → Except String MetadataRecord) (msg : String) :
    ∀ (pre : List Entry) (item : Entry) (rest : List Entry),
      pre.all wellFormed = true → enrichItem f item = Except.error msg →
      enrichList f (pre ++ item :: rest) = Except.error msg := by
  intro pre
  induction pre with
  | nil =>
    intro item rest _ hbad
    simp only [List.nil_append, enrichList, hbad]
  | cons p ps ih =>
    intro item rest hwf hbad
    rw [List.all_cons, Bool.and_eq_true] at hwf
    have hp := enrichItem_wf f p hwf.1
    rw [List.cons_append]
    unfold enrichList
    rw [hp, ih item rest hwf.2 hbad]

/-- Entry of the spec's Scenario 1: `{name: "clip.mp4", type: "file"}`. -/
def clipEntry : Entry :=
  [("name", JVal.str "clip.mp4"), ("type", JVal.str "file")]

/-- Remote JSON body of the spec's Scenario 1. -/
def scenario1Body : List (String × JVal) :=
  [("length", JVal.num 120), ("width", JVal.num 1920),
   ("height", JVal.num 1080), ("encode", JVal.str "h264"),
   ("status", JVal.str "ready")]

/-- Scenario 1 directory lister: one video file entry at every path. -/
def scenario1Lister : String → Except String (List Entry) :=
  fun _ => Except.ok [clipEntry]

/-- Scenario 1 fetch: the CDN client run against an HTTP 200 reply with
the scenario's JSON body. -/
def scenario1Fetch : String → Except String MetadataRecord :=
  fun _ => get_video_metadata ⟨200, scenario1Body, ""⟩

/-- Scenario 1 expected output entry, metadata attached. -/
def clipEnriched : Entry :=
  [("name", JVal.str "clip.mp4"), ("type", JVal.str "file"),
   ("metadata",
     JVal.obj
       [("duration", JVal.num 120), ("width", JVal.num 1920),
        ("height", JVal.num 1080), ("encoding", JVal.str "h264"),
        ("status", JVal.str "ready")])]

/-- C3: on an HTTP 200 reply `get_video_metadata` returns exactly the
five fields `length`, `width`, `height`, `encode`, `status` read with
`data.get` (absent fields become null, no defaulting); a field absent from
the body is null in the record; and the enricher attaches them to the
entry as `duration`, `width`, `height`, `encoding`, `status`, exactly as
in the spec's Scenario 1. -/
theorem C3_success_normalization :
    (∀ (body : List (String × JVal)) (text : String),
      get_video_metadata ⟨200, body, text⟩ =
        Except.ok
          ⟨pyGet body "length", pyGet body "width", pyGet body "height",
           pyGet body "encode", pyGet body "status"⟩) ∧
    get_video_metadata ⟨200, [("length", JVal.num 5)], ""⟩ =
      Except.ok ⟨JVal.num 5, JVal.null, JVal.null, JVal.null, JVal.null⟩ ∧
    list_contents "/videos" scenario1Lister scenario1Fetch =
      Response.success [clipEnriched] :=
  ⟨fun _ _ => rfl, rfl, rfl⟩

/-- C5: when the directory lister itself raises, the raise does not
escape `list_contents`; the reply is the ordinary error body carrying the
failure's description (so the error is signaled only in the body, not as
a transport failure). -/
theorem C5_request_level_failure (path : String)
    (lister : String → Except String (List Entry))
    (fetch : String → Except String MetadataRecord) (msg : String)
    (h : lister path = Except.error msg) :
    list_contents path lister fetch = Response.error msg := by
  unfold list_contents
  rw [h]

/-- C5 witness: a lister that raises `path not found` yields the error
body with that message. -/
theorem C5_request_level_failure_witness :
    (fun _ : String =>
        (Except.error "path not found" : Except String (List Entry))) "/x" =
      Except.error "path not found" ∧
    list_contents "/x" (fun _ => Except.error "path not found")
        (fun _ => Except.error "unused") =
      Response.error "path not found" :=
  ⟨rfl, C5_request_level_failure "/x" _ _ "path not found" rfl⟩

/-- C7: on any non-200 status of the single GET attempt the client fails
with an error carrying the response body text as its detail (no retry: the
call consumes exactly one response). -/
theorem C7_non_200_failure (st : Nat) (body : List (String × JVal))
    (text : String) (h : st ≠ 200) :
    get_video_metadata ⟨st, body, text⟩ =
      Except.error ("Failed to fetch metadata: " ++ text) := by
  unfold get_video_metadata
  simp [h]

/-- C7 witness: a 404 reply with body text `nope`. -/
theorem C7_non_200_failure_witness :
    (404 : Nat) ≠ 200 ∧
    get_video_metadata ⟨404, [], "nope"⟩ =
      Except.error "Failed to fetch metadata: nope" :=
  ⟨by decide, C7_non_200_failure 404 [] "nope" (by decide)⟩

/-- C9: `list_contents` is deterministic in the listing and the remote
responses: two calls with an unchanged directory lister and unchanged
fetch results produce identical output. -/
theorem C9_idempotence (path : String)
    (lister1 lister2 : String → Except String (List Entry))
    (fetch1 fetch2 : String → Except String MetadataRecord)
    (hl : ∀ s, lister1 s = lister2 s) (hf : ∀ s, fetch1 s = fetch2 s) :
    list_contents path lister1 fetch1 = list_contents path lister2 fetch2 := by
  rw [funext hl, funext hf]

/-- C9 witness: two runs of Scenario 1 agree. -/
theorem C9_idempotence_witness :
    (∀ s, scenario1Lister s = scenario1Lister s) ∧
    list_contents "/videos" scenario1Lister scenario1Fetch =
      list_contents "/videos" scenario1Lister scenario1Fetch :=
  ⟨fun _ => rfl,
    C9_idempotence "/videos" scenario1Lister scenario1Lister scenario1Fetch
      scenario1Fetch (fun _ => rfl) (fun _ => rfl)⟩

/-- C2: in a success response every entry that was an eligible video file
carries a `metadata` key, holding either the mapped metadata object or
null, and every other entry is returned exactly as the lister produced it
(in particular it gains no `metadata` key). -/
theorem C2_metadata_invariant (path : String)
    (lister : String → Except String (List Entry))
    (fetch : String → Except String MetadataRecord) (l cs : List Entry)
    (hl : lister path = Except.ok l)
    (hs : list_contents path lister fetch = Response.success cs) :
    cs.length = l.length ∧
      ∀ i, i < l.length →
        (eligible (nthEntry l i) = true →
          ∃ v, List.lookup "metadata" (nthEntry cs i) = some v ∧
            (v = JVal.null ∨ ∃ md, v = metaObj md)) ∧
        (eligible (nthEntry l i) = false → nthEntry cs i = nthEntry l i) := by
  unfold list_contents at hs
  rw [hl] at hs
  simp only [] at hs
  cases hel : enrichList fetch l with
  | error msg => rw [hel] at hs; exact absurd hs (by simp)
  | ok p =>
    obtain ⟨es, tr⟩ := p
    rw [hel] at hs
    simp only [Response.success.injEq] at hs
    subst hs
    obtain ⟨hlen, hpt⟩ := enrichList_ok fetch l es tr hel
    refine ⟨hlen, ?_⟩
    intro i hi
    obtain ⟨c, hc⟩ := hpt i hi
    obtain ⟨h1, h2⟩ := enrichItem_ok fetch (nthEntry l i) (nthEntry es i) c hc
    constructor
    · intro helig
      rw [h1 helig, lookup_attachMeta_self]
      cases fetch (entryName (nthEntry l i)) with
      | ok md => exact ⟨metaObj md, rfl, Or.inr ⟨md, rfl⟩⟩
      | error e => exact ⟨JVal.null, rfl, Or.inl rfl⟩
    · intro helig
      exact h2 helig

/-- C2 witness: Scenario 1's single video entry carries the populated
metadata object. -/
theorem C2_metadata_invariant_witness :
    scenario1Lister "/videos" = Except.ok [clipEntry] ∧
    list_contents "/videos" scenario1Lister scenario1Fetch =
      Response.success [clipEnriched] ∧
    ([clipEnriched].length = [clipEntry].length ∧
      ∀ i, i < [clipEntry].length →
        (eligible (nthEntry [clipEntry] i) = true →
          ∃ v, List.lookup "metadata" (nthEntry [clipEnriched] i) = some v ∧
            (v = JVal.null ∨ ∃ md, v = metaObj md)) ∧
        (eligible (nthEntry [clipEntry] i) = false →
          nthEntry [clipEnriched] i = nthEntry [clipEntry] i)) :=
  ⟨rfl, rfl,
    C2_metadata_invariant "/videos" scenario1Lister scenario1Fetch
      [clipEntry] [clipEnriched] rfl rfl⟩

/-- C8: a success response has exactly as many entries as the listing, in
the listing's order, and at every position every field other than
`metadata` is unchanged. -/
theorem C8_structure_preservation (path : String)
    (lister : String → Except String (List Entry))
    (fetch : String → Except String MetadataRecord) (l cs : List Entry)
    (hl : lister path = Except.ok l)
    (hs : list_contents path lister fetch = Response.success cs) :
    cs.length = l.length ∧
      ∀ i, i < l.length → ∀ k, k ≠ "metadata" →
        List.lookup k (nthEntry cs i) = List.lookup k (nthEntry l i) := by
  unfold list_contents at hs
  rw [hl] at hs
  simp only [] at hs
  cases hel : enrichList fetch l with
  | error msg => rw [hel] at hs; exact absurd hs (by simp)
  | ok p =>
    obtain ⟨es, tr⟩ := p
    rw [hel] at hs
    simp only [Response.success.injEq] at hs
    subst hs
    obtain ⟨hlen, hpt⟩ := enrichList_ok fetch l es tr hel
    refine ⟨hlen, ?_⟩
    intro i hi k hk
    obtain ⟨c, hc⟩ := hpt i hi
    obtain ⟨h1, h2⟩ := enrichItem_ok fetch (nthEntry l i) (nthEntry es i) c hc
    cases helig : eligible (nthEntry l i) with
    | true => rw [h1 helig, lookup_attachMeta_ne _ _ _ hk]
    | false => rw [h2 helig]

/-- C8 witness: Scenario 1 preserves length and the non-metadata
fields. -/
theorem C8_structure_preservation_witness :
    scenario1Lister "/videos" = Except.ok [clipEntry] ∧
    list_contents "/videos" scenario1Lister scenario1Fetch =
      Response.success [clipEnriched] ∧
    ([clipEnriched].length = [clipEntry].length ∧
      ∀ i, i < [clipEntry].length → ∀ k, k ≠ "metadata" →
        List.lookup k (nthEntry [clipEnriched] i) =
          List.lookup k (nthEntry [clipEntry] i)) :=
  ⟨rfl, rfl,
    C8_structure_preservation "/videos" scenario1Lister scenario1Fetch
      [clipEntry] [clipEnriched] rfl rfl⟩

theorem pyEqStr_iff (v : JVal) (s : String) :
    pyEqStr v s = true ↔ v = JVal.str s := by
  cases v <;> simp [pyEqStr]

/-- An entry that is a directory, or a file whose name is a string that is
not a video name (the shape C4 quantifies over). -/
def isNonVideoEntry (it : Entry) : Bool :=
  match List.lookup "type" it with
  | none => false
  | some t =>
    if pyEqStr t "directory" then true
    else if pyEqStr t "file" then
      match List.lookup "name" it with
      | some (JVal.str n) => !(isVideoName n)
      | _ => false
    else false

theorem isNonVideoEntry_wf (it : Entry) (h : isNonVideoEntry it = true) :
    wellFormed it = true ∧ eligible it = false := by
  unfold isNonVideoEntry at h
  unfold wellFormed eligible
  cases htype : List.lookup "type" it with
  | none => rw [htype] at h; exact absurd h (by simp)
  | some t =>
    rw [htype] at h
    simp only [] at h ⊢
    by_cases hd : pyEqStr t "directory"
    · rw [pyEqStr_iff] at hd
      subst hd
      constructor <;> rfl
    · rw [if_neg hd] at h
      by_cases hf : pyEqStr t "file"
      · rw [if_pos hf] at h
        rw [if_pos hf, if_pos hf]
        cases hname : List.lookup "name" it with
        | none => rw [hname] at h; exact absurd h (by simp)
        | some nv =>
          rw [hname] at h
          cases nv with
          | str n =>
            simp only [Bool.not_eq_true'] at h
            exact ⟨rfl, h⟩
          | null => exact absurd h (by simp)
          | num m => exact absurd h (by simp)
          | bool b => exact absurd h (by simp)
          | obj o => exact absurd h (by simp)
      · rw [if_neg hf] at h
        exact absurd h (by simp)

theorem map_id_of_fixed (l : List Entry) (g : Entry → Entry)
    (h : ∀ it ∈ l, g it = it) : l.map g = l := by
  induction l with
  | nil => rfl
  | cons x xs ih =>
    rw [List.map_cons, h x (by simp), ih (fun it hit => h it (by simp [hit]))]

/-- C4: a listing with no video files (each entry a directory or a
non-video file) passes through unchanged: the reply is the success body
holding exactly the lister's entries, none of them gaining a `metadata`
key. -/
theorem C4_no_videos_passthrough (path : String)
    (lister : String → Except String (List Entry))
    (fetch : String → Except String MetadataRecord) (l : List Entry)
    (hl : lister path = Except.ok l)
    (hnv : l.all isNonVideoEntry = true) :
    list_contents path lister fetch = Response.success l := by
  rw [List.all_eq_true] at hnv
  have hwf : l.all wellFormed = true := by
    rw [List.all_eq_true]
    intro x hx
    exact (isNonVideoEntry_wf x (hnv x hx)).1
  unfold list_contents
  rw [hl]
  simp only []
  rw [enrichList_wf fetch l hwf]
  have hfix : ∀ it ∈ l, (processItem fetch it).1 = it := by
    intro it hit
    unfold processItem
    simp [(isNonVideoEntry_wf it (hnv it hit)).2]
  rw [map_id_of_fixed l _ hfix]

/-- C4 witness: a text file and a directory pass through unchanged. -/
theorem C4_no_videos_passthrough_witness :
    ([[("name", JVal.str "notes.txt"), ("type", JVal.str "file")],
      [("name", JVal.str "sub"), ("type", JVal.str "directory")]].all
        isNonVideoEntry = true) ∧
    list_contents "/docs"
        (fun _ => Except.ok
          [[("name", JVal.str "notes.txt"), ("type", JVal.str "file")],
           [("name", JVal.str "sub"), ("type", JVal.str "directory")]])
        (fun _ => Except.error "unused") =
      Response.success
        [[("name", JVal.str "notes.txt"), ("type", JVal.str "file")],
         [("name", JVal.str "sub"), ("type", JVal.str "directory")]] :=
  ⟨rfl,
    C4_no_videos_passthrough "/docs" _ _
      [[("name", JVal.str "notes.txt"), ("type", JVal.str "file")],
       [("name", JVal.str "sub"), ("type", JVal.str "directory")]] rfl rfl⟩

/-- C6: on a well-formed listing a metadata fetch is attempted exactly for
the entries satisfying the source's condition — type is the string
`file` and the lowercased name ends with `.mp4`, `.mov` or `.webm` — and
the id passed to the CDN client is the entry's file name verbatim: the
fetched-id trace is the name of each eligible entry, in order. -/
theorem C6_eligibility (f : String → Except String MetadataRecord)
    (l : List Entry) (hwf : l.all wellFormed = true) :
    (∃ es, enrichList f l =
      Except.ok (es, (l.filter (fun it => eligible it)).map entryName)) ∧
    ∀ it : Entry, eligible it = true ↔
      List.lookup "type" it = some (JVal.str "file") ∧
        ∃ n, List.lookup "name" it = some (JVal.str n) ∧
          isVideoName n = true := by
  constructor
  · exact ⟨_, enrichList_wf f l hwf⟩
  · intro it
    unfold eligible
    cases htype : List.lookup "type" it with
    | none => simp
    | some t =>
      simp only []
      by_cases hf : pyEqStr t "file"
      · rw [if_pos hf]
        rw [pyEqStr_iff] at hf
        subst hf
        cases hname : List.lookup "name" it with
        | none => simp
        | some nv =>
          cases nv with
          | str n => simp
          | null => simp
          | num m => simp
          | bool b => simp
          | obj o => simp
      · rw [if_neg hf]
        simp only [Bool.false_eq_true, false_iff]
        intro hcon
        obtain ⟨h1, -⟩ := hcon
        injection h1 with h1
        exact hf ((pyEqStr_iff t "file").mpr h1)

/-- C6 witness: with one video file and one text file, exactly one fetch
is attempted, for the video's file name. -/
theorem C6_eligibility_witness :
    ([clipEntry,
      [("name", JVal.str "notes.txt"), ("type", JVal.str "file")]].all
        wellFormed = true) ∧
    (∃ es, enrichList scenario1Fetch
        [clipEntry,
         [("name", JVal.str "notes.txt"), ("type", JVal.str "file")]] =
      Except.ok (es,
        ([clipEntry,
          [("name", JVal.str "notes.txt"), ("type", JVal.str "file")]].filter
            (fun it => eligible it)).map entryName)) :=
  ⟨rfl,
    (C6_eligibility scenario1Fetch
      [clipEntry,
       [("name", JVal.str "notes.txt"), ("type", JVal.str "file")]] rfl).1⟩

/-- On a well-formed listing the request succeeds with the pointwise
processed entries. -/
theorem list_contents_wf (path : String)
    (lister : String → Except String (List Entry))
    (fetch : String → Except String MetadataRecord) (l : List Entry)
    (hl : lister path = Except.ok l) (hwf : l.all wellFormed = true) :
    list_contents path lister fetch =
      Response.success (l.map (fun it => (processItem fetch it).1)) := by
  unfold list_contents
  rw [hl]
  simp only []
  rw [enrichList_wf fetch l hwf]

/-- C1: per-item failure isolation.  Take a well-formed listing, a video
file entry at position `i`, and two fetch oracles `f` and `g` that agree
on every other entry's video id, where `g` fails on entry `i`'s id.  Both
runs still reply with the success body; under the failing oracle entry
`i`'s `metadata` is null; and at every other position the two runs return
the same entry, so the one failure affects no other entry and processing
of the remaining entries continues. -/
theorem C1_per_item_isolation (path : String)
    (lister : String → Except String (List Entry))
    (f g : String → Except String MetadataRecord)
    (l : List Entry) (i : Nat) (msg : String)
    (hl : lister path = Except.ok l)
    (hwf : l.all wellFormed = true)
    (hi : i < l.length)
    (hvid : eligible (nthEntry l i) = true)
    (hfail : g (entryName (nthEntry l i)) = Except.error msg)
    (hagree : ∀ j, j < l.length → j ≠ i →
      f (entryName (nthEntry l j)) = g (entryName (nthEntry l j))) :
    ∃ csf csg,
      list_contents path lister f = Response.success csf ∧
      list_contents path lister g = Response.success csg ∧
      csf.length = l.length ∧ csg.length = l.length ∧
      List.lookup "metadata" (nthEntry csg i) = some JVal.null ∧
      ∀ j, j < l.length → j ≠ i → nthEntry csf j = nthEntry csg j := by
  refine ⟨l.map (fun it => (processItem f it).1),
    l.map (fun it => (processItem g it).1),
    list_contents_wf path lister f l hl hwf,
    list_contents_wf path lister g l hl hwf, by simp, by simp, ?_, ?_⟩
  · rw [nthEntry_map _ l i hi]
    unfold processItem
    rw [if_pos hvid]
    simp only []
    rw [hfail]
    unfold attachMeta
    simp only []
    exact lookup_dictSet_self _ _ _
  · intro j hj hne
    rw [nthEntry_map _ l j hj, nthEntry_map _ l j hj,
      processItem_congr f g (nthEntry l j) (fun _ => hagree j hj hne)]

/-- Fetch oracle for the C1 witness: succeeds on every id. -/
def wFetchOK : String → Except String MetadataRecord :=
  fun _ =>
    Except.ok
      ⟨JVal.num 120, JVal.num 1920, JVal.num 1080, JVal.str "h264",
       JVal.str "ready"⟩

/-- Fetch oracle for the C1 witness: fails on `clip.mp4`, agrees with
`wFetchOK` elsewhere. -/
def wFetchFail : String → Except String MetadataRecord :=
  fun s => if s = "clip.mp4" then Except.error "boom" else wFetchOK s

/-- Non-video file entry used by several witnesses. -/
def notesEntry : Entry :=
  [("name", JVal.str "notes.txt"), ("type", JVal.str "file")]

/-- C1 witness: two entries, the fetch for `clip.mp4` fails, the other
entry's result is unaffected and the reply is still a success body. -/
theorem C1_per_item_isolation_witness :
    ([clipEntry, notesEntry].all wellFormed = true) ∧
    eligible (nthEntry [clipEntry, notesEntry] 0) = true ∧
    wFetchFail (entryName (nthEntry [clipEntry, notesEntry] 0)) =
      Except.error "boom" ∧
    ∃ csf csg,
      list_contents "/videos" (fun _ => Except.ok [clipEntry, notesEntry])
          wFetchOK = Response.success csf ∧
      list_contents "/videos" (fun _ => Except.ok [clipEntry, notesEntry])
          wFetchFail = Response.success csg ∧
      csf.length = [clipEntry, notesEntry].length ∧
      csg.length = [clipEntry, notesEntry].length ∧
      List.lookup "metadata" (nthEntry csg 0) = some JVal.null ∧
      ∀ j, j < [clipEntry, notesEntry].length → j ≠ 0 →
        nthEntry csf j = nthEntry csg j :=
  ⟨rfl, rfl, rfl,
    C1_per_item_isolation "/videos" (fun _ => Except.ok [clipEntry, notesEntry])
      wFetchOK wFetchFail [clipEntry, notesEntry] 0 "boom" rfl rfl
      (by decide) rfl rfl
      (by
        intro j hj hne
        match j, hj, hne with
        | 1, _, _ => rfl)⟩

/-- C10 counterexample to the claim as stated: an entry lacking a `name`
key does not always error the whole request.  The source's condition
`item['type'] == 'file' and item['name']...` short-circuits, so a
directory entry with no `name` key is never looked up: the listing
`[{type: "directory"}]` lacks a `name` key yet the request replies with
the success body holding that entry unchanged. -/
theorem C10_malformed_entry_counterexample :
    List.lookup "name" ([("type", JVal.str "directory")] : Entry) = none ∧
    list_contents "/v"
        (fun _ => Except.ok [[("type", JVal.str "directory")]]) wFetchOK =
      Response.success [[("type", JVal.str "directory")]] :=
  ⟨rfl, rfl⟩

/-- C10 (amended): a malformed entry — one lacking a `type` key, or an
entry whose type is the string `file` lacking a `name` key — raises
outside the per-item handler, so the whole request replies with the error
body instead of isolating the failure to that entry, and the response
does not depend on the entries after the malformed one (they are never
processed).  A non-file entry lacking a `name` key is excluded: the
condition short-circuits and such an entry passes through (see the
counterexample above). -/
theorem C10_malformed_entry (path : String) (pre post : List Entry)
    (item : Entry) (f : String → Except String MetadataRecord)
    (hpre : pre.all wellFormed = true)
    (hbad : List.lookup "type" item = none ∨
      (List.lookup "type" item = some (JVal.str "file") ∧
        List.lookup "name" item = none)) :
    (∃ msg, list_contents path (fun _ => Except.ok (pre ++ item :: post)) f =
      Response.error msg) ∧
    list_contents path (fun _ => Except.ok (pre ++ item :: post)) f =
      list_contents path (fun _ => Except.ok (pre ++ [item])) f := by
  have hitem : ∃ m, enrichItem f item = Except.error m := by
    cases hbad with
    | inl h => exact ⟨"KeyError: type", by unfold enrichItem; rw [h]⟩
    | inr h =>
      refine ⟨"KeyError: name", ?_⟩
      unfold enrichItem
      rw [h.1]
      simp only []
      rw [if_pos (by rfl), h.2]
  obtain ⟨m, hm⟩ := hitem
  have h1 := enrichList_stops_at_error f m pre item post hpre hm
  have h2 := enrichList_stops_at_error f m pre item [] hpre hm
  constructor
  · refine ⟨m, ?_⟩
    unfold list_contents
    simp only []
    rw [h1]
  · unfold list_contents
    simp only []
    rw [h1, h2]

/-- C10 witness: a listing holding a well-formed text file, then an entry
with no `type` key, then a video entry; the reply is the error body and
equals the reply for the listing truncated after the malformed entry. -/
theorem C10_malformed_entry_witness :
    ([notesEntry].all wellFormed = true) ∧
    List.lookup "type" [("name", JVal.str "x.mp4")] = none ∧
    ((∃ msg, list_contents "/v"
        (fun _ => Except.ok
          ([notesEntry] ++ [("name", JVal.str "x.mp4")] :: [clipEntry]))
        wFetchOK = Response.error msg) ∧
      list_contents "/v"
          (fun _ => Except.ok
            ([notesEntry] ++ [("name", JVal.str "x.mp4")] :: [clipEntry]))
          wFetchOK =
        list_contents "/v"
          (fun _ => Except.ok ([notesEntry] ++ [[("name", JVal.str "x.mp4")]]))
          wFetchOK) :=
  ⟨rfl, rfl,
    C10_malformed_entry "/v" [notesEntry] [clipEntry]
      [("name", JVal.str "x.mp4")] wFetchOK rfl (Or.inl rfl)⟩

end SnappedWeb
